import Mathlib

/-!
Verification of the libpbm netpbm encoder/decoder library.

The Rust source (src/lib.rs) is shallowly embedded below.  Files are byte
sequences modelled as `List Nat` (each element one byte value); `usize`
arithmetic wraps modulo `2 ^ 64` where the source can underflow or overflow;
machine `u16` values wrap modulo `2 ^ 16`.  Fallible operations (header
parsing, loading) return `Option`.  The `while` loop of the header reader is
modelled with explicit fuel (`headerLoopF`); the loaders instantiate the fuel
with a value that is sufficient whenever the loop terminates, so `none`
coincides with divergence or a panic of the original.
-/

/-- 2 ^ 64, the wrap-around modulus of Rust `usize` arithmetic. -/
def M64 : Nat := 18446744073709551616

/-- 2 ^ 16, the wrap-around modulus of Rust `u16` arithmetic. -/
def M16 : Nat := 65536

/-- The character of a single decimal digit. -/
def digitChar (n : Nat) : Char := Char.ofNat (48 + n)

/-- Fuel-driven decimal digit expansion (most significant digit first). -/
def natDigitsAux : Nat → Nat → List Char
  | 0, _ => []
  | fuel + 1, n => if n < 10 then [digitChar n] else natDigitsAux fuel (n / 10) ++ [digitChar (n % 10)]

/-- Decimal digit list of a natural number, as Rust `format!` prints it. -/
def natToDigits (n : Nat) : List Char := natDigitsAux (n + 1) n

/-- Decimal string of a natural number (Rust `format!` on an integer). -/
def decRepr (n : Nat) : String := String.mk (natToDigits n)

/-- Decimal digits of a number as a byte list (UTF-8 of its decimal form). -/
def natBytes (n : Nat) : List Nat := (natToDigits n).map Char.toNat

/-- Is the byte an ASCII decimal digit? -/
def isDigitByte (b : Nat) : Bool := 48 ≤ b && b ≤ 57

/-- Value of a list of ASCII digit bytes. -/
def digitsVal (bs : List Nat) : Nat := bs.foldl (fun a b => a * 10 + (b - 48)) 0

/-- Core of Rust string-to-unsigned-integer parsing: an optional leading
`+` followed by a non-empty run of decimal digits. -/
def parseDecCore (bs : List Nat) : Option Nat :=
  let core := if bs.head? = some 43 then bs.tail else bs
  if core ≠ [] && core.all isDigitByte then some (digitsVal core) else none

/-- Rust `str::parse::<usize>` on a byte slice: decimal parse failing on
overflow past `usize::MAX`. -/
def parseUsize (bs : List Nat) : Option Nat :=
  (parseDecCore bs).bind (fun v => if v < M64 then some v else none)

/-- Rust `str::parse::<u16>` on a byte slice: decimal parse failing on
overflow past `u16::MAX`. -/
def parseU16 (bs : List Nat) : Option Nat :=
  (parseDecCore bs).bind (fun v => if v < M16 then some v else none)

/-- Model of `take_while(|x| x != &&10)` on a byte iterator: the consumed line and the
bytes remaining after the line and its terminating newline (if any). -/
def readLine (bs : List Nat) : List Nat × List Nat :=
  (bs.takeWhile (fun b => b != 10), (bs.dropWhile (fun b => b != 10)).drop 1)

/-- First space-separated field of a line (`split.next()`), which always
exists. -/
def firstFieldOf (line : List Nat) : List Nat := line.takeWhile (fun b => b != 32)

/-- Second space-separated field of a line (the second `split.next()`),
absent when the line holds no space. -/
def secondField (line : List Nat) : Option (List Nat) :=
  let r := line.dropWhile (fun b => b != 32)
  if r.isEmpty then none else some ((r.drop 1).takeWhile (fun b => b != 32))

/-- Model of `if let Some(tok) ... if let Ok(v) = tok.parse()`: a parseable field
overwrites the stored dimension, anything else keeps it. -/
def headerField (old : Option Nat) (fld : Option (List Nat)) : Option Nat :=
  match fld with
  | none => old
  | some f =>
    match parseUsize f with
    | some v => some v
    | none => old

/-- The header `while width.is_none() || height.is_none()` loop of the
loaders, with explicit fuel.  Each iteration consumes one line and feeds its
first two space-separated fields to `headerField`.  On success it returns the
dimensions and the unconsumed bytes; `none` means the fuel ran out, which for
sufficient fuel means the Rust loop never exits. -/
def headerLoopF (fuel : Nat) (bs : List Nat) (w h : Option Nat) : Option (Nat × Nat × List Nat) :=
  match w, h with
  | some wv, some hv => some (wv, hv, bs)
  | _, _ =>
    match fuel with
    | 0 => none
    | fuel' + 1 =>
      let line := (readLine bs).1
      let rest := (readLine bs).2
      let w' := headerField w (some (firstFieldOf line))
      let h' := headerField h (secondField line)
      headerLoopF fuel' rest w' h'

/-- Element-wise consumption of the two magic bytes by
`file_iter.by_ref().take(2).eq(magic)`: stops at the first mismatch, so a
mismatching file may lose fewer than two bytes. -/
def eatMagic : List Nat → List Nat → Bool × List Nat
  | [], bs => (true, bs)
  | _ :: _, [] => (false, [])
  | c :: m, b :: bs => if b = c then eatMagic m bs else (false, bs)

/-- ASCII whitespace bytes recognised by `split_whitespace`. -/
def isWs (b : Nat) : Bool := b = 32 || b = 9 || b = 10 || b = 11 || b = 12 || b = 13

/-- Fuel-driven whitespace tokenizer (`split_whitespace` on the payload). -/
def tokenizeWsAux : Nat → List Nat → List (List Nat)
  | 0, _ => []
  | _, [] => []
  | fuel + 1, b :: bs =>
    if isWs b then tokenizeWsAux fuel bs
    else (b :: bs.takeWhile (fun c => !isWs c)) :: tokenizeWsAux fuel (bs.dropWhile (fun c => !isWs c))

/-- Whitespace tokenization of the remaining payload bytes. -/
def tokenizeWs (bs : List Nat) : List (List Nat) := tokenizeWsAux bs.length bs

/-- Writing `pixels[y][x] = v` on a row-major grid (total model of the indexed
store; the Rust source only reaches it with both indexes in bounds). -/
def gridSet (g : List (List α)) (x y : Nat) (v : α) : List (List α) :=
  g.set y ((g.getD y []).set x v)

/-- Reading `pixels[y][x]` on a row-major grid, with a default for the out-of-bounds
reads the Rust source never performs. -/
def gridGet (g : List (List α)) (x y : Nat) (d : α) : α := (g.getD y []).getD x d

/-- Model of `pixels[len - 1].push(v)`: append a value to the last row. -/
def pushLast (g : List (List α)) (v : α) : List (List α) :=
  g.dropLast ++ [(g.getLast?.getD []) ++ [v]]

/-- Image kinds of NetPAM files (source enum `TupleType`). -/
inductive TupleType where
  | blackAndWhite
  | grayscale
  | rgb
  | blackAndWhiteAlpha
  | grayscaleAlpha
  | rgbAlpha
  | custom (depth : Nat) (tuple_type : String)
deriving DecidableEq

/-- Source method `TupleType::get_depth`. -/
def TupleType.get_depth : TupleType → Nat
  | .blackAndWhite => 1
  | .grayscale => 1
  | .rgb => 3
  | .blackAndWhiteAlpha => 2
  | .grayscaleAlpha => 2
  | .rgbAlpha => 4
  | .custom d _ => d

/-- Source struct `NetPBMFile`: 1-bit pixels. -/
structure NetPBMFile where
  width : Nat
  height : Nat
  pixels : List (List Bool)
deriving DecidableEq

/-- Source struct `NetPGMFile`: one `u16` sample per pixel. -/
structure NetPGMFile where
  width : Nat
  height : Nat
  max_val : Nat
  pixels : List (List Nat)
deriving DecidableEq

/-- Source struct `NetPPMFile`: an rgb triple of `u16` samples per pixel. -/
structure NetPPMFile where
  width : Nat
  height : Nat
  max_val : Nat
  pixels : List (List (Nat × Nat × Nat))
deriving DecidableEq

/-- Source struct `NetPAM`. -/
structure NetPAM where
  width : Nat
  height : Nat
  depth : Nat
  max_val : Nat
  tuple_type : TupleType
  pixels : List (List (List Nat))
deriving DecidableEq

/-- Source constructor `NetPBM::<NetPBMFile>::new_pbm`. -/
def new_pbm (w h : Nat) : NetPBMFile :=
  ⟨w, h, List.replicate h (List.replicate w false)⟩

/-- Source constructor `NetPBM::<NetPGMFile>::new_pgm`. -/
def new_pgm (w h m : Nat) : NetPGMFile :=
  ⟨w, h, m, List.replicate h (List.replicate w 0)⟩

/-- Source constructor `NetPBM::<NetPPMFile>::new_ppm`. -/
def new_ppm (w h m : Nat) : NetPPMFile :=
  ⟨w, h, m, List.replicate h (List.replicate w (0, 0, 0))⟩

/-- Source constructor `NetPAM::new`. -/
def NetPAM.new (w h m : Nat) (tt : TupleType) : NetPAM :=
  ⟨w, h, tt.get_depth, m, tt, List.replicate h (List.replicate w (List.replicate tt.get_depth 0))⟩

/-- Source method `NetPBM::<NetPBMFile>::set_pixel`. -/
def NetPBMFile.set_pixel (img : NetPBMFile) (x y : Nat) (v : Bool) : NetPBMFile :=
  if x < img.width ∧ y < img.height then
    { img with pixels := gridSet img.pixels x y v }
  else img

/-- Source method `NetPBM::<NetPBMFile>::get_pixel`. -/
def NetPBMFile.get_pixel (img : NetPBMFile) (x y : Nat) : Option Bool :=
  if x < img.width ∧ y < img.height then some (gridGet img.pixels x y false) else none

/-- Source method `NetPBM::<NetPGMFile>::set_pixel`. -/
def NetPGMFile.set_pixel (img : NetPGMFile) (x y v : Nat) : NetPGMFile :=
  if x < img.width ∧ y < img.height ∧ v ≤ img.max_val then
    { img with pixels := gridSet img.pixels x y v }
  else img

/-- Source method `NetPBM::<NetPGMFile>::get_pixel`. -/
def NetPGMFile.get_pixel (img : NetPGMFile) (x y : Nat) : Option Nat :=
  if x < img.width ∧ y < img.height then some (gridGet img.pixels x y 0) else none

/-- All three channels of an rgb triple within the allowed range
(`color.iter().all(|x| x <= &self.max_val)`). -/
def tripleLe (c : Nat × Nat × Nat) (m : Nat) : Prop :=
  c.1 ≤ m ∧ c.2.1 ≤ m ∧ c.2.2 ≤ m

instance (c : Nat × Nat × Nat) (m : Nat) : Decidable (tripleLe c m) := by
  unfold tripleLe; exact inferInstance

/-- Source method `NetPBM::<NetPPMFile>::set_pixel`. -/
def NetPPMFile.set_pixel (img : NetPPMFile) (x y : Nat) (c : Nat × Nat × Nat) : NetPPMFile :=
  if x < img.width ∧ y < img.height ∧ tripleLe c img.max_val then
    { img with pixels := gridSet img.pixels x y c }
  else img

/-- Source method `NetPBM::<NetPPMFile>::get_pixel`. -/
def NetPPMFile.get_pixel (img : NetPPMFile) (x y : Nat) : Option (Nat × Nat × Nat) :=
  if x < img.width ∧ y < img.height then some (gridGet img.pixels x y (0, 0, 0)) else none

/-- Source method `NetPAM::set_pixel`. -/
def NetPAM.set_pixel (img : NetPAM) (x y : Nat) (c : List Nat) : NetPAM :=
  if x < img.width ∧ y < img.height ∧ c.length = img.depth ∧ ∀ v ∈ c, v ≤ img.max_val then
    { img with pixels := gridSet img.pixels x y c }
  else img

/-- Source method `NetPAM::get_pixel`. -/
def NetPAM.get_pixel (img : NetPAM) (x y : Nat) : Option (List Nat) :=
  if x < img.width ∧ y < img.height then some (gridGet img.pixels x y []) else none

/-- The bit buffer of `NetPBMFile::to_raw`: for pixel `i` of row `row_id`
the source ORs bit `7 - i % 8` into byte index `row_id + i / 8`, pushing a
zero byte whenever the index reaches the buffer length. -/
def pbmBits (pixels : List (List Bool)) : List Nat :=
  pixels.enum.foldl
    (fun bits rowPair =>
      rowPair.2.enum.foldl
        (fun bits bitPair =>
          let idx := rowPair.1 + bitPair.1 / 8
          let bits := if bits.length ≤ idx then bits ++ [0] else bits
          bits.set idx ((bits.getD idx 0) ||| (bitPair.2.toNat <<< (7 - bitPair.1 % 8))))
        bits)
    []

/-- Source method `NetPBMFile::to_raw`: `P4` magic, dimensions line, then the bit buffer. -/
def NetPBMFile.to_raw (img : NetPBMFile) : List Nat :=
  [80, 52, 10] ++ natBytes img.width ++ [32] ++ natBytes img.height ++ [10] ++ pbmBits img.pixels

/-- The per-sample binary encoder shared by the `to_raw` of graymaps,
pixmaps and arbitrary maps: two bytes `x >> 8` and `x & 0xff` when
`max_val > 255`, otherwise the single byte `x as u8`. -/
def encodeSample (maxv v : Nat) : List Nat :=
  if 255 < maxv then [v >>> 8, v &&& 255] else [v % 256]

/-- Source method `NetPGMFile::to_raw`: `P5` magic, dimensions, max value, then each
sample in row-major order through `encodeSample`. -/
def NetPGMFile.to_raw (img : NetPGMFile) : List Nat :=
  [80, 53, 10] ++ natBytes img.width ++ [32] ++ natBytes img.height ++ [10]
    ++ natBytes img.max_val ++ [10]
    ++ img.pixels.flatten.flatMap (encodeSample img.max_val)

/-- The comment block of `to_ascii`: nothing, or a newline, `# `, and the
comment with every embedded newline rewritten to a newline plus `# `. -/
def commentBlock (c : Option String) : String :=
  match c with
  | none => ""
  | some s => "\n# " ++ s.replace "\n" "\n# "

/-- One ASCII sample field: the decimal digits of `v` right-aligned with
spaces to the decimal width of `maxv` (Rust `{:>len$}`). -/
def fmtField (maxv v : Nat) : String :=
  String.mk (List.replicate ((natToDigits maxv).length - (natToDigits v).length) ' ' ++ natToDigits v)

/-- One ASCII bitmap field: `0` or `1`, unpadded (`u8::from(*pixel)`). -/
def fmtBit (b : Bool) : String := if b then "1" else "0"

/-- Rust `Vec::<String>::join`: the pieces interleaved with the separator. -/
def joinSep (sep : String) : List String → String
  | [] => ""
  | [s] => s
  | s :: rest => s ++ sep ++ joinSep sep rest

/-- Source method `NetPBMFile::to_ascii`. -/
def NetPBMFile.to_ascii (img : NetPBMFile) (c : Option String) : String :=
  "P1" ++ commentBlock c ++ "\n" ++ decRepr img.width ++ " " ++ decRepr img.height ++ "\n"
    ++ joinSep "\n" (img.pixels.map (fun row => joinSep " " (row.map fmtBit)))
    ++ "\n"

/-- Source method `NetPGMFile::to_ascii`. -/
def NetPGMFile.to_ascii (img : NetPGMFile) (c : Option String) : String :=
  "P2" ++ commentBlock c ++ "\n" ++ decRepr img.width ++ " " ++ decRepr img.height ++ "\n"
    ++ decRepr img.max_val ++ "\n"
    ++ joinSep "\n"
        (img.pixels.map (fun row => joinSep " " (row.map (fmtField img.max_val))))
    ++ "\n"

/-- The three space-separated fields of one pixmap pixel
(`"{:>len$} {:>len$} {:>len$}"`). -/
def fmtTriple (maxv : Nat) (c : Nat × Nat × Nat) : String :=
  fmtField maxv c.1 ++ " " ++ fmtField maxv c.2.1 ++ " " ++ fmtField maxv c.2.2

/-- Source method `NetPPMFile::to_ascii`. -/
def NetPPMFile.to_ascii (img : NetPPMFile) (c : Option String) : String :=
  "P3" ++ commentBlock c ++ "\n" ++ decRepr img.width ++ " " ++ decRepr img.height ++ "\n"
    ++ decRepr img.max_val ++ "\n"
    ++ joinSep "\n"
        (img.pixels.map (fun row => joinSep " " (row.map (fmtTriple img.max_val))))
    ++ "\n"

/-- Model of `(*byte as u16) << 8` in the binary graymap/pixmap decoders. -/
def shl8 (b : Nat) : Nat := (b * 256) % M16

/-- Model of `temp + *byte as u16` completing a two-byte sample in the decoders. -/
def mergeLow (temp lo : Nat) : Nat := (temp + lo) % M16

/-- The decoder's reassembly of a big-endian two-byte sample: the high byte
shifted into place, then the low byte added. -/
def mergeBE (hi lo : Nat) : Nat := mergeLow (shl8 hi) lo

/-- One byte of the binary graymap payload loop of `load_pgm`: first the
row-advance check (`num_bits > width * bytes_per_sample && pixels.len() <
height` starts a fresh row, anything else increments `num_bits`), then the
byte is merged into a sample.  State: rows so far, `num_bits`, `temp`. -/
def pgmBinStep (w h maxv : Nat) (st : List (List Nat) × Nat × Nat) (byte : Nat) :
    List (List Nat) × Nat × Nat :=
  let pixels := st.1
  let nb0 := st.2.1
  let temp := st.2.2
  let pixels' := if nb0 > w * (if 255 < maxv then 2 else 1) ∧ pixels.length < h
    then pixels ++ [[]] else pixels
  let nb := if nb0 > w * (if 255 < maxv then 2 else 1) ∧ pixels.length < h
    then 0 else (nb0 + 1) % M64
  if 255 < maxv then
    if nb % 2 = 1 then (pixels', nb, shl8 byte)
    else (pushLast pixels' (mergeLow temp byte), nb, mergeLow temp byte)
  else (pushLast pixels' byte, nb, temp)

/-- One whitespace token of the ASCII graymap payload loop of `load_pgm`:
the row-advance check (`num_bits >= width && pixels.len() < height`), then a
parseable token is pushed and an unparseable one decrements `num_bits`
(wrapping at zero, as Rust release builds do).  State: rows so far,
`num_bits`. -/
def pgmAsciiStep (w h : Nat) (st : List (List Nat) × Nat) (tok : List Nat) :
    List (List Nat) × Nat :=
  let pixels := st.1
  let nb0 := st.2
  let pixels' := if nb0 ≥ w ∧ pixels.length < h then pixels ++ [[]] else pixels
  let nb := if nb0 ≥ w ∧ pixels.length < h then 0 else (nb0 + 1) % M64
  match parseU16 tok with
  | some v => (pushLast pixels' v, nb)
  | none => (pixels', (nb + M64 - 1) % M64)

/-- The ASCII graymap payload decoder on an already-tokenized payload. -/
def pgmAsciiDecode (w h : Nat) (toks : List (List Nat)) : List (List Nat) :=
  (toks.foldl (pgmAsciiStep w h) ([[]], 0)).1

/-- Source function `load_pgm` on the bytes of a file: magic consumption, header loop, max
value line, then the binary or ASCII payload loop.  `none` captures the
fatal outcomes (unparseable max value, or a header loop that never finds
dimensions and thus never terminates). -/
def loadPgm (file : List Nat) : Option NetPGMFile :=
  let magic := eatMagic [80, 53] file
  let isBin := magic.1
  let rest := magic.2
  match headerLoopF (rest.length + 1) rest none none with
  | none => none
  | some (w, h, r2) =>
    let maxLine := (readLine r2).1
    let r3 := (readLine r2).2
    match parseU16 maxLine with
    | none => none
    | some maxv =>
      let pixels :=
        if isBin then (r3.foldl (pgmBinStep w h maxv) ([[]], 0, 0)).1
        else pgmAsciiDecode w h (tokenizeWs r3)
      some ⟨w, h, maxv, pixels⟩

/-- Shape and range invariant of a row-major sample grid: `h` rows, each of
`w` entries, every entry satisfying `P`. -/
def gridWF (w h : Nat) (P : α → Prop) (g : List (List α)) : Prop :=
  g.length = h ∧ ∀ row ∈ g, row.length = w ∧ ∀ a ∈ row, P a

instance (w h : Nat) (P : α → Prop) [DecidablePred P] (g : List (List α)) :
    Decidable (gridWF w h P g) := by
  unfold gridWF; exact inferInstance

/-- Invariant of spec section 3 for bitmaps (bit samples are booleans, so no
range condition applies). -/
abbrev pbmWF (img : NetPBMFile) : Prop :=
  gridWF img.width img.height (fun _ => True) img.pixels

/-- Invariant of spec section 3 for graymaps. -/
abbrev pgmWF (img : NetPGMFile) : Prop :=
  gridWF img.width img.height (fun v => v ≤ img.max_val) img.pixels

/-- Invariant of spec section 3 for pixmaps. -/
abbrev ppmWF (img : NetPPMFile) : Prop :=
  gridWF img.width img.height (fun c => tripleLe c img.max_val) img.pixels

/-- Invariant of spec section 3 for arbitrary maps. -/
abbrev pamWF (img : NetPAM) : Prop :=
  gridWF img.width img.height
    (fun c => c.length = img.depth ∧ ∀ v ∈ c, v ≤ img.max_val) img.pixels

/-- A sequence of `set_pixel` calls on a bitmap. -/
def applyPbmOps (img : NetPBMFile) (ops : List (Nat × Nat × Bool)) : NetPBMFile :=
  ops.foldl (fun i op => i.set_pixel op.1 op.2.1 op.2.2) img

/-- A sequence of `set_pixel` calls on a graymap. -/
def applyPgmOps (img : NetPGMFile) (ops : List (Nat × Nat × Nat)) : NetPGMFile :=
  ops.foldl (fun i op => i.set_pixel op.1 op.2.1 op.2.2) img

/-- A sequence of `set_pixel` calls on a pixmap. -/
def applyPpmOps (img : NetPPMFile) (ops : List (Nat × Nat × (Nat × Nat × Nat))) : NetPPMFile :=
  ops.foldl (fun i op => i.set_pixel op.1 op.2.1 op.2.2) img

/-- A sequence of `set_pixel` calls on an arbitrary map. -/
def applyPamOps (img : NetPAM) (ops : List (Nat × Nat × List Nat)) : NetPAM :=
  ops.foldl (fun i op => i.set_pixel op.1 op.2.1 op.2.2) img

/-- Decimal digit count of the maximum value, the ASCII field width of the
spec. -/
def decimalWidth (m : Nat) : Nat := (natToDigits m).length

/-- A decimal sample field right-aligned (space-padded) to field width `fw`,
as the spec words it. -/
def padField (fw v : Nat) : String :=
  String.mk (List.replicate (fw - (natToDigits v).length) ' ' ++ natToDigits v)

/-- The spec's row block: pixel rows joined by a newline, with a trailing
newline. -/
def rowsBlock (rows : List String) : String := joinSep "\n" rows ++ "\n"

/-- Text layout of a bitmap as claim C8 words it: ascii magic, optional
comment block, dimension line, then the row block of unpadded `0`/`1`
fields. -/
def pbmLayoutSpec (img : NetPBMFile) (c : Option String) : String :=
  "P1" ++ commentBlock c ++ "\n" ++ decRepr img.width ++ " " ++ decRepr img.height ++ "\n"
    ++ rowsBlock (img.pixels.map (fun row => joinSep " " (row.map fmtBit)))

/-- Text layout of a graymap as claim C8 words it: ascii magic, optional
comment block, dimension line, max-value line, then the row block of
right-aligned fields of width `decimalWidth max_val`. -/
def pgmLayoutSpec (img : NetPGMFile) (c : Option String) : String :=
  "P2" ++ commentBlock c ++ "\n" ++ decRepr img.width ++ " " ++ decRepr img.height ++ "\n"
    ++ decRepr img.max_val ++ "\n"
    ++ rowsBlock
        (img.pixels.map (fun row => joinSep " " (row.map (padField (decimalWidth img.max_val)))))

/-- Text layout of a pixmap as claim C8 words it: each row is a space-joined
sequence of decimal sample fields (three channel fields per pixel), each
right-aligned to width `decimalWidth max_val`. -/
def ppmLayoutSpec (img : NetPPMFile) (c : Option String) : String :=
  "P3" ++ commentBlock c ++ "\n" ++ decRepr img.width ++ " " ++ decRepr img.height ++ "\n"
    ++ decRepr img.max_val ++ "\n"
    ++ rowsBlock
        (img.pixels.map (fun row => joinSep " "
          ((row.flatMap (fun p => [p.1, p.2.1, p.2.2])).map (padField (decimalWidth img.max_val)))))

/-- Claim C3's packing of one bitmap row: eight consecutive pixels per byte,
most significant bit first, the final byte of the row padded with zero bits.
`cnt` counts the bits already in `acc`. -/
def packRowGo : List Bool → Nat → Nat → List Nat
  | [], 0, _ => []
  | [], cnt, acc => [acc * 2 ^ (8 - cnt)]
  | b :: bs, cnt, acc =>
    if cnt = 7 then (acc * 2 + b.toNat) :: packRowGo bs 0 0
    else packRowGo bs (cnt + 1) (acc * 2 + b.toNat)

/-- Claim C3's packing of one bitmap row. -/
def packRowSpec (row : List Bool) : List Nat := packRowGo row 0 0

/-- Claim C3's packing of a bitmap payload: each row packed independently,
so each row starts a fresh byte. -/
def bitPackSpec (rows : List (List Bool)) : List Nat := (rows.map packRowSpec).flatten

/-- Splitting a byte list on a separator byte, keeping empty chunks (Rust
`split` semantics). -/
def splitOnByte (sep : Nat) : List Nat → List (List Nat)
  | [] => [[]]
  | b :: bs =>
    if b = sep then [] :: splitOnByte sep bs
    else
      match splitOnByte sep bs with
      | [] => [[b]]
      | t :: ts => (b :: t) :: ts

/-- Claim C4's reading of the header: the first two parseable non-negative
integers encountered across lines, in order of appearance. -/
def claimFirstTwo (bs : List Nat) : List Nat :=
  (((splitOnByte 10 bs).flatMap (splitOnByte 32)).filterMap parseUsize).take 2

/-- Joining of header lines: every line followed by one newline byte. -/
def lineJoin (lines : List (List Nat)) : List Nat :=
  lines.foldr (fun l acc => l ++ 10 :: acc) []

/-- The 2 by 2 graymap of claim C1's round-trip counterexample, built through
the construction API with in-range values. -/
def imgC1 : NetPGMFile :=
  ((((new_pgm 2 2 255).set_pixel 0 0 1).set_pixel 1 0 2).set_pixel 0 1 3).set_pixel 1 1 4

/-- A 9 by 2 bitmap with only pixel (8, 0) set, built through the
construction API. -/
def imgC3 : NetPBMFile := (new_pbm 9 2).set_pixel 8 0 true

/-- The 2 by 2 bitmap of spec section 8, built through the construction
API. -/
def imgP4 : NetPBMFile := ((new_pbm 2 2).set_pixel 1 0 true).set_pixel 0 1 true

/-- The bytes of a graymap file "P5\n1 2\n255\n" followed by payload bytes
5 and 6. -/
def bytesC2 : List Nat := [80, 53, 10, 49, 32, 50, 10, 50, 53, 53, 10, 5, 6]

/-- The header bytes "a 7\n5 6\n" of claim C4's counterexample. -/
def bytesC4 : List Nat := [97, 32, 55, 10, 53, 32, 54, 10]

/-- One byte of the ASCII bitmap payload loop of `load_pbm` (the loop is
byte-driven, not token-driven): first the row-advance check
(`num_bits > width && pixels.len() < height` starts a fresh row, anything
else increments `num_bits` — so every byte, whitespace included, advances
the count), then a `0` byte (48) pushes `false`, a `1` byte (49) pushes
`true`, and any other byte pushes nothing.  State: rows so far,
`num_bits`. -/
def pbmAsciiStep (w h : Nat) (st : List (List Bool) × Nat) (byte : Nat) :
    List (List Bool) × Nat :=
  let pixels := st.1
  let nb0 := st.2
  let pixels' := if nb0 > w ∧ pixels.length < h then pixels ++ [[]] else pixels
  let nb := if nb0 > w ∧ pixels.length < h then 0 else (nb0 + 1) % M64
  if byte = 48 then (pushLast pixels' false, nb)
  else if byte = 49 then (pushLast pixels' true, nb)
  else (pixels', nb)

/-- The ASCII bitmap payload decoder of `load_pbm` on the raw payload
bytes. -/
def pbmAsciiDecode (w h : Nat) (bytes : List Nat) : List (List Bool) :=
  (bytes.foldl (pbmAsciiStep w h) ([[]], 0)).1

/-- Model of `temp[idx] = v` on the three-channel buffer of `load_ppm`
(total model of the indexed store; the source keeps `idx` below 3). -/
def setTriple (t : Nat × Nat × Nat) (idx v : Nat) : Nat × Nat × Nat :=
  match idx with
  | 0 => (v, t.2.1, t.2.2)
  | 1 => (t.1, v, t.2.2)
  | 2 => (t.1, t.2.1, v)
  | _ => t

/-- One whitespace token of the ASCII pixmap payload loop of `load_ppm`:
first the row-advance check (`num_bits >= width * 3 && pixels.len() <
height`), then a parseable token is stored in the channel buffer `temp` at
position `idx` (a completed triple is pushed and `idx` resets), and an
unparseable one decrements `num_bits` (wrapping at zero, as Rust release
builds do).  State: rows so far, `num_bits`, `temp`, `idx`. -/
def ppmAsciiStep (w h : Nat) (st : List (List (Nat × Nat × Nat)) × Nat × (Nat × Nat × Nat) × Nat)
    (tok : List Nat) : List (List (Nat × Nat × Nat)) × Nat × (Nat × Nat × Nat) × Nat :=
  let pixels := st.1
  let nb0 := st.2.1
  let temp := st.2.2.1
  let idx := st.2.2.2
  let pixels' := if nb0 ≥ w * 3 ∧ pixels.length < h then pixels ++ [[]] else pixels
  let nb := if nb0 ≥ w * 3 ∧ pixels.length < h then 0 else (nb0 + 1) % M64
  match parseU16 tok with
  | some v =>
    let temp' := setTriple temp idx v
    if idx + 1 = 3 then (pushLast pixels' temp', nb, temp', 0)
    else (pixels', nb, temp', idx + 1)
  | none => (pixels', (nb + M64 - 1) % M64, temp, idx)

/-- The ASCII pixmap payload decoder of `load_ppm` on an already-tokenized
payload. -/
def ppmAsciiDecode (w h : Nat) (toks : List (List Nat)) : List (List (Nat × Nat × Nat)) :=
  (toks.foldl (ppmAsciiStep w h) ([[]], 0, (0, 0, 0), 0)).1

/-- The ASCII bitmap payload "0 1\n1 0\n" of the C6 counterexample. -/
def bytesC6a : List Nat := [48, 32, 49, 10, 49, 32, 48, 10]

/-- The ASCII bitmap payload "0  1\n1 0\n" (one extra space), which
whitespace-tokenizes identically to `bytesC6a`. -/
def bytesC6b : List Nat := [48, 32, 32, 49, 10, 49, 32, 48, 10]

/-- C1.  The binary round-trip fails on the code: the 2 by 2 graymap
`imgC1` (built via `new_pgm` and in-range `set_pixel` calls, samples
`[[1,2],[3,4]]`) is encoded by `to_raw` and decoded by `load_pgm` into the
sample grid `[[1,2,3],[4]]`, which differs from the original grid. -/
theorem c1_binary_roundtrip_fails :
    imgC1.pixels = [[1, 2], [3, 4]]
    ∧ (loadPgm imgC1.to_raw).map NetPGMFile.pixels = some [[1, 2, 3], [4]]
    ∧ (loadPgm imgC1.to_raw).map NetPGMFile.pixels ≠ some imgC1.pixels := by
  exact ⟨by decide, by decide, by decide⟩

/-- C2 counterexample.  An Image reachable through the public API via a
loader violates the shape invariants: decoding the graymap file bytes
`bytesC2` (a valid "P5" file claiming 1 by 2) yields an image whose pixel
grid `[[5,6]]` has 1 row instead of `height = 2` and a row of length 2
instead of `width = 1`. -/
theorem c2_loader_breaks_invariants :
    loadPgm bytesC2 = some ⟨1, 2, 255, [[5, 6]]⟩ ∧ ¬ pgmWF ⟨1, 2, 255, [[5, 6]]⟩ := by
  exact ⟨by decide, by decide⟩

/-- C3.  Bit-packing: the claim's concrete examples hold (the 8-pixel row
`[1,0,1,1,0,0,1,0]` packs to byte 178 = 0b10110010, and the 2 by 2 bitmap of
spec section 8 encodes to "P4\n2 2\n" followed by bytes 64 and 128), but the
universal statement fails: on the 9 by 2 bitmap `imgC3` the encoder's byte
buffer is `[0,128,0]` (row 1 is ORed into row 0's second byte) while packing
each row into fresh bytes as the claim requires gives `[0,128,0,0]`. -/
theorem c3_bit_packing_eval :
    packRowSpec [true, false, true, true, false, false, true, false] = [178]
    ∧ imgP4.to_raw = [80, 52, 10, 50, 32, 50, 10, 64, 128]
    ∧ pbmBits imgC3.pixels = [0, 128, 0]
    ∧ bitPackSpec imgC3.pixels = [0, 128, 0, 0]
    ∧ pbmBits imgC3.pixels ≠ bitPackSpec imgC3.pixels := by
  exact ⟨by decide, by decide, by decide, by decide, by decide⟩

/-- C4 counterexample.  On header bytes "a 7\n5 6\n" the first two parseable
integers in order of appearance are 7 then 5, but the code's header loop
returns width 5 and height 6: the integer 7 (a second field on a line whose
first field is unparseable) is assigned to height and later overwritten. -/
theorem c4_header_order_cex :
    headerLoopF 9 bytesC4 none none = some (5, 6, [])
    ∧ claimFirstTwo bytesC4 = [7, 5]
    ∧ (5, 6) ≠ (7, 5) := by
  exact ⟨by decide, by decide, by decide⟩

/-- C6 counterexample.  Two failures of the claim.  Graymap: in the ASCII
payload decoder (width 1, height 3) the unparseable token "x" (byte 120) is
not merely skipped — it consumes a row transition, so decoding tokens
"5 x 6 7" gives `[[5],[],[6,7]]` while "5 6 7" gives `[[5],[6,7]]`: the
skipped token changed where rows end and begin.  Bitmap: the ASCII payload
decoder does not whitespace-tokenize at all — the payloads "0 1\n1 0\n" and
"0  1\n1 0\n" tokenize identically yet decode to different grids
(`[[0,1],[1,0]]` versus `[[0],[1,1,0]]`), because every byte, whitespace
included, advances the byte-driven row count. -/
theorem c6_skipped_token_moves_rows :
    (parseU16 [120] = none
      ∧ pgmAsciiDecode 1 3 [[53], [120], [54], [55]] = [[5], [], [6, 7]]
      ∧ pgmAsciiDecode 1 3 [[53], [54], [55]] = [[5], [6, 7]]
      ∧ pgmAsciiDecode 1 3 [[53], [120], [54], [55]] ≠ pgmAsciiDecode 1 3 [[53], [54], [55]])
    ∧ (tokenizeWs bytesC6a = tokenizeWs bytesC6b
      ∧ pbmAsciiDecode 2 2 bytesC6a = [[false, true], [true, false]]
      ∧ pbmAsciiDecode 2 2 bytesC6b = [[false], [true, true, false]]
      ∧ pbmAsciiDecode 2 2 bytesC6a ≠ pbmAsciiDecode 2 2 bytesC6b) := by
  exact ⟨⟨by decide, by decide, by decide, by decide⟩,
    ⟨by decide, by decide, by decide, by decide⟩⟩

/-- C5.  The header loop never exits on an exhausted input: with no bytes
left and dimensions still unknown, no amount of fuel makes `headerLoopF`
produce a result — the Rust `while` loop re-reads empty lines forever
instead of aborting with an error. -/
theorem c5_header_loop_never_exits : ∀ fuel, headerLoopF fuel [] none none = none := by
  intro fuel
  induction fuel with
  | zero => rfl
  | succ f ih =>
    simpa [headerLoopF, readLine, firstFieldOf, secondField, headerField,
      parseUsize, parseDecCore] using ih

/-- Incrementing and then decrementing `num_bits` with wrapping `usize`
arithmetic is the identity on reduced counters. -/
theorem wrapSubOne {nb : Nat} (h : nb < M64) : ((nb + 1) % M64 + M64 - 1) % M64 = nb := by
  have hM : M64 = 18446744073709551616 := rfl
  rcases Nat.lt_or_ge (nb + 1) M64 with h1 | h1
  · rw [Nat.mod_eq_of_lt h1]
    have e : nb + 1 + M64 - 1 = nb + M64 := by omega
    rw [e, Nat.add_mod_right, Nat.mod_eq_of_lt h]
  · have e : nb + 1 = M64 := by omega
    rw [e, Nat.mod_self]
    have e2 : 0 + M64 - 1 = M64 - 1 := by omega
    rw [e2, Nat.mod_eq_of_lt (by omega)]
    omega

/-- C6 amended.  In the token-driven ASCII payload decoders (graymap and
pixmap), a token that fails integer parsing and does not arrive exactly at
the decoder's row transition — `num_bits ≥ width` for the graymap,
`num_bits ≥ width * 3` for the pixmap, with rows still missing — is skipped
without consuming a row-count slot: the whole decoder state, including the
pixmap's partial-pixel channel buffer and index, is left unchanged. -/
theorem c6_amended_skip_keeps_state :
    (∀ (w h : Nat) (pixels : List (List Nat)) (nb : Nat) (tok : List Nat),
      parseU16 tok = none → nb < M64 → ¬ (nb ≥ w ∧ pixels.length < h) →
      pgmAsciiStep w h (pixels, nb) tok = (pixels, nb))
    ∧ (∀ (w h : Nat) (pixels : List (List (Nat × Nat × Nat))) (nb : Nat)
        (temp : Nat × Nat × Nat) (idx : Nat) (tok : List Nat),
      parseU16 tok = none → nb < M64 → ¬ (nb ≥ w * 3 ∧ pixels.length < h) →
      ppmAsciiStep w h (pixels, nb, temp, idx) tok = (pixels, nb, temp, idx)) := by
  constructor
  · intro w h pixels nb tok hp hnb ht
    simp only [pgmAsciiStep, hp, if_neg ht]
    exact congrArg (Prod.mk pixels) (wrapSubOne hnb)
  · intro w h pixels nb temp idx tok hp hnb ht
    simp only [ppmAsciiStep, hp, if_neg ht]
    exact congrArg (fun n => (pixels, n, temp, idx)) (wrapSubOne hnb)

/-- Witness for the amended C6 statement at concrete graymap and pixmap
decoder states. -/
theorem c6_amended_witness :
    pgmAsciiStep 2 2 ([[1, 2]], 0) [120] = ([[1, 2]], 0)
    ∧ ppmAsciiStep 2 2 ([[(1, 2, 3)]], 0, (4, 0, 0), 1) [120]
        = ([[(1, 2, 3)]], 0, (4, 0, 0), 1) :=
  ⟨c6_amended_skip_keeps_state.1 2 2 [[1, 2]] 0 [120] (by decide) (by decide) (by decide),
   c6_amended_skip_keeps_state.2 2 2 [[(1, 2, 3)]] 0 (4, 0, 0) 1 [120]
     (by decide) (by decide) (by decide)⟩

/-- C9.  The sample codec: with `max_value > 255` a sample encodes as the
two big-endian bytes `v >> 8` and `v & 0xff`, and the decoder's merge of a
high and a low byte (`mergeBE`, shift then add as in the binary graymap
loop) restores the sample; with `max_value ≤ 255` a sample encodes as the
single truncated byte. -/
theorem c9_sample_codec (maxv v : Nat) (hv : v < M16) :
    (255 < maxv → encodeSample maxv v = [v / 256, v % 256]
      ∧ mergeBE (v / 256) (v % 256) = v)
    ∧ (maxv ≤ 255 → encodeSample maxv v = [v % 256]) := by
  have hM : M16 = 65536 := rfl
  constructor
  · intro hm
    refine ⟨?_, ?_⟩
    · unfold encodeSample
      rw [if_pos hm]
      have e1 : v >>> 8 = v / 256 := by
        rw [Nat.shiftRight_eq_div_pow]
      have e2 : v &&& 255 = v % 256 := by
        have e := Nat.and_pow_two_sub_one_eq_mod v 8
        norm_num at e
        exact e
      rw [e1, e2]
    · simp only [mergeBE, mergeLow, shl8, M16]
      rw [hM] at hv
      omega
  · intro hm
    unfold encodeSample
    rw [if_neg (by omega)]

/-- Witness for C9 at the claim's concrete sample 0x1234 = 4660. -/
theorem c9_witness : encodeSample 65535 4660 = [18, 52] ∧ mergeBE 18 52 = 4660 := by
  have h := (c9_sample_codec 65535 4660 (by decide)).1 (by norm_num)
  refine ⟨h.1.trans (by norm_num), ?_⟩
  have e1 : (4660 : Nat) / 256 = 18 := by norm_num
  have e2 : (4660 : Nat) % 256 = 52 := by norm_num
  rw [← e1, ← e2]
  exact h.2

/-- An in-bounds `getD` read is a member of the list. -/
theorem getD_mem {α} {l : List α} {i : Nat} (h : i < l.length) (d : α) : l.getD i d ∈ l := by
  rw [List.getD_eq_getElem?_getD, List.getElem?_eq_getElem h]
  exact List.getElem_mem h

/-- Reading with `getD` after `set` at the written index. -/
theorem getD_set_self {α} {l : List α} {i : Nat} {a d : α} (h : i < l.length) :
    (l.set i a).getD i d = a := by
  rw [List.getD_eq_getElem?_getD, List.getElem?_set_self h]
  rfl

/-- Reading with `getD` after `set` at a different index. -/
theorem getD_set_ne {α} {l : List α} {i j : Nat} {a d : α} (h : i ≠ j) :
    (l.set i a).getD j d = l.getD j d := by
  rw [List.getD_eq_getElem?_getD, List.getD_eq_getElem?_getD, List.getElem?_set_ne h]

/-- Reading a grid after an in-bounds `gridSet`: the written pixel holds the
new value and every other pixel is unchanged. -/
theorem gridGet_gridSet {α} {g : List (List α)} {x y : Nat} {v : α} {x' y' : Nat} {d : α}
    (hy : y < g.length) (hx : x < (g.getD y []).length) :
    gridGet (gridSet g x y v) x' y' d =
      if x' = x ∧ y' = y then v else gridGet g x' y' d := by
  unfold gridGet gridSet
  by_cases hyy : y' = y
  · subst hyy
    rw [getD_set_self hy]
    by_cases hxx : x' = x
    · subst hxx
      rw [getD_set_self hx, if_pos ⟨rfl, rfl⟩]
    · rw [getD_set_ne (fun e => hxx e.symm), if_neg (fun hc => hxx hc.1)]
  · rw [getD_set_ne (fun e => hyy e.symm), if_neg (fun hc => hyy hc.2)]

/-- A freshly allocated constant grid satisfies the shape invariant. -/
theorem gridWF_new {α} (w h : Nat) (P : α → Prop) (a : α) (ha : P a) :
    gridWF w h P (List.replicate h (List.replicate w a)) := by
  refine ⟨by simp, fun row hrow => ?_⟩
  rcases List.mem_replicate.mp hrow with ⟨-, rfl⟩
  refine ⟨by simp, fun v hv => ?_⟩
  rcases List.mem_replicate.mp hv with ⟨-, rfl⟩
  exact ha

/-- Row length of a well-formed grid. -/
theorem gridWF_row_len {α} {w h : Nat} {P : α → Prop} {g : List (List α)}
    (hg : gridWF w h P g) {y : Nat} (hy : y < h) : (g.getD y []).length = w := by
  obtain ⟨hlen, hrows⟩ := hg
  exact (hrows _ (getD_mem (by omega) [])).1

/-- Applying `gridSet` with an admissible value preserves the shape invariant. -/
theorem gridWF_gridSet {α} {w h : Nat} {P : α → Prop} {g : List (List α)} {x y : Nat} {v : α}
    (hg : gridWF w h P g) (hv : P v) : gridWF w h P (gridSet g x y v) := by
  obtain ⟨hlen, hrows⟩ := hg
  by_cases hy : y < g.length
  · constructor
    · simpa [gridSet] using hlen
    · intro row hrow
      unfold gridSet at hrow
      rcases List.mem_or_eq_of_mem_set hrow with h1 | rfl
      · exact hrows row h1
      · obtain ⟨hrl, hrv⟩ := hrows _ (getD_mem hy ([] : List α))
        refine ⟨by simpa using hrl, fun a ha => ?_⟩
        rcases List.mem_or_eq_of_mem_set ha with h2 | rfl
        · exact hrv a h2
        · exact hv
  · unfold gridSet
    rw [List.set_eq_of_length_le (by omega)]
    exact ⟨hlen, hrows⟩

/-- C7.  Out-of-range access soft-fail for all four formats: a `set_pixel`
whose coordinates are out of bounds or whose value exceeds `max_val` leaves
the image unchanged and signals nothing; an out-of-bounds `get_pixel`
returns `none`; an in-bounds `get_pixel` returns the stored sample. -/
theorem c7_soft_fail :
    (∀ (img : NetPBMFile) (x y : Nat) (v : Bool),
      (img.width ≤ x ∨ img.height ≤ y → img.set_pixel x y v = img)
      ∧ (img.width ≤ x ∨ img.height ≤ y → img.get_pixel x y = none)
      ∧ (x < img.width → y < img.height →
          img.get_pixel x y = some (gridGet img.pixels x y false)))
    ∧ (∀ (img : NetPGMFile) (x y v : Nat),
      (img.width ≤ x ∨ img.height ≤ y ∨ img.max_val < v → img.set_pixel x y v = img)
      ∧ (img.width ≤ x ∨ img.height ≤ y → img.get_pixel x y = none)
      ∧ (x < img.width → y < img.height →
          img.get_pixel x y = some (gridGet img.pixels x y 0)))
    ∧ (∀ (img : NetPPMFile) (x y : Nat) (c : Nat × Nat × Nat),
      (img.width ≤ x ∨ img.height ≤ y ∨ ¬ tripleLe c img.max_val → img.set_pixel x y c = img)
      ∧ (img.width ≤ x ∨ img.height ≤ y → img.get_pixel x y = none)
      ∧ (x < img.width → y < img.height →
          img.get_pixel x y = some (gridGet img.pixels x y (0, 0, 0))))
    ∧ (∀ (img : NetPAM) (x y : Nat) (c : List Nat),
      (img.width ≤ x ∨ img.height ≤ y ∨ (∃ v ∈ c, img.max_val < v) → img.set_pixel x y c = img)
      ∧ (img.width ≤ x ∨ img.height ≤ y → img.get_pixel x y = none)
      ∧ (x < img.width → y < img.height →
          img.get_pixel x y = some (gridGet img.pixels x y []))) := by
  refine ⟨fun img x y v => ⟨?_, ?_, ?_⟩, fun img x y v => ⟨?_, ?_, ?_⟩,
    fun img x y c => ⟨?_, ?_, ?_⟩, fun img x y c => ⟨?_, ?_, ?_⟩⟩
  · intro hor
    unfold NetPBMFile.set_pixel
    rw [if_neg]
    rintro ⟨h1, h2⟩
    rcases hor with h | h <;> omega
  · intro hor
    unfold NetPBMFile.get_pixel
    rw [if_neg]
    rintro ⟨h1, h2⟩
    rcases hor with h | h <;> omega
  · intro hx hy
    unfold NetPBMFile.get_pixel
    rw [if_pos ⟨hx, hy⟩]
  · intro hor
    unfold NetPGMFile.set_pixel
    rw [if_neg]
    rintro ⟨h1, h2, h3⟩
    rcases hor with h | h | h <;> omega
  · intro hor
    unfold NetPGMFile.get_pixel
    rw [if_neg]
    rintro ⟨h1, h2⟩
    rcases hor with h | h <;> omega
  · intro hx hy
    unfold NetPGMFile.get_pixel
    rw [if_pos ⟨hx, hy⟩]
  · intro hor
    unfold NetPPMFile.set_pixel
    rw [if_neg]
    rintro ⟨h1, h2, h3⟩
    rcases hor with h | h | h
    · omega
    · omega
    · exact h h3
  · intro hor
    unfold NetPPMFile.get_pixel
    rw [if_neg]
    rintro ⟨h1, h2⟩
    rcases hor with h | h <;> omega
  · intro hx hy
    unfold NetPPMFile.get_pixel
    rw [if_pos ⟨hx, hy⟩]
  · intro hor
    unfold NetPAM.set_pixel
    rw [if_neg]
    rintro ⟨h1, h2, h3, h4⟩
    rcases hor with h | h | ⟨v, hv, hgt⟩
    · omega
    · omega
    · exact absurd (h4 v hv) (by omega)
  · intro hor
    unfold NetPAM.get_pixel
    rw [if_neg]
    rintro ⟨h1, h2⟩
    rcases hor with h | h <;> omega
  · intro hx hy
    unfold NetPAM.get_pixel
    rw [if_pos ⟨hx, hy⟩]

/-- Witness for C7: concrete out-of-range writes are no-ops, an
out-of-range read is empty, and an in-bounds read returns the stored
pixel. -/
theorem c7_witness :
    (new_pbm 2 2).set_pixel 2 0 true = new_pbm 2 2
    ∧ (new_pgm 2 2 9).set_pixel 0 0 10 = new_pgm 2 2 9
    ∧ (new_ppm 2 2 9).get_pixel 2 0 = none
    ∧ (NetPAM.new 2 2 9 TupleType.rgb).get_pixel 0 0 = some [0, 0, 0] := by
  refine ⟨(c7_soft_fail.1 (new_pbm 2 2) 2 0 true).1 (Or.inl (by decide)), ?_, ?_, ?_⟩
  · exact (c7_soft_fail.2.1 (new_pgm 2 2 9) 0 0 10).1 (Or.inr (Or.inr (by decide)))
  · exact (c7_soft_fail.2.2.1 (new_ppm 2 2 9) 2 0 (0, 0, 0)).2.1 (Or.inl (by decide))
  · have h := (c7_soft_fail.2.2.2 (NetPAM.new 2 2 9 TupleType.rgb) 0 0 []).2.2
      (by decide) (by decide)
    exact h.trans (by decide)

/-- C10.  In-bounds write frame property for all four formats: when the
guard of `set_pixel` passes, the call stores the given value at `(x, y)`,
leaves every other in-range pixel unchanged, and preserves the width,
height, `max_val`, depth and tuple-kind fields. -/
theorem c10_set_pixel_frame :
    (∀ (img : NetPBMFile) (x y : Nat) (v : Bool), pbmWF img →
      x < img.width → y < img.height →
      (img.set_pixel x y v).width = img.width
      ∧ (img.set_pixel x y v).height = img.height
      ∧ ∀ x' y', x' < img.width → y' < img.height →
          gridGet (img.set_pixel x y v).pixels x' y' false =
            if x' = x ∧ y' = y then v else gridGet img.pixels x' y' false)
    ∧ (∀ (img : NetPGMFile) (x y v : Nat), pgmWF img →
      x < img.width → y < img.height → v ≤ img.max_val →
      (img.set_pixel x y v).width = img.width
      ∧ (img.set_pixel x y v).height = img.height
      ∧ (img.set_pixel x y v).max_val = img.max_val
      ∧ ∀ x' y', x' < img.width → y' < img.height →
          gridGet (img.set_pixel x y v).pixels x' y' 0 =
            if x' = x ∧ y' = y then v else gridGet img.pixels x' y' 0)
    ∧ (∀ (img : NetPPMFile) (x y : Nat) (c : Nat × Nat × Nat), ppmWF img →
      x < img.width → y < img.height → tripleLe c img.max_val →
      (img.set_pixel x y c).width = img.width
      ∧ (img.set_pixel x y c).height = img.height
      ∧ (img.set_pixel x y c).max_val = img.max_val
      ∧ ∀ x' y', x' < img.width → y' < img.height →
          gridGet (img.set_pixel x y c).pixels x' y' (0, 0, 0) =
            if x' = x ∧ y' = y then c else gridGet img.pixels x' y' (0, 0, 0))
    ∧ (∀ (img : NetPAM) (x y : Nat) (c : List Nat), pamWF img →
      x < img.width → y < img.height → c.length = img.depth → (∀ v ∈ c, v ≤ img.max_val) →
      (img.set_pixel x y c).width = img.width
      ∧ (img.set_pixel x y c).height = img.height
      ∧ (img.set_pixel x y c).depth = img.depth
      ∧ (img.set_pixel x y c).max_val = img.max_val
      ∧ (img.set_pixel x y c).tuple_type = img.tuple_type
      ∧ ∀ x' y', x' < img.width → y' < img.height →
          gridGet (img.set_pixel x y c).pixels x' y' [] =
            if x' = x ∧ y' = y then c else gridGet img.pixels x' y' []) := by
  refine ⟨fun img x y v hwf hx hy => ?_, fun img x y v hwf hx hy hv => ?_,
    fun img x y c hwf hx hy hc => ?_, fun img x y c hwf hx hy hlen hall => ?_⟩
  · unfold NetPBMFile.set_pixel
    rw [if_pos ⟨hx, hy⟩]
    refine ⟨rfl, rfl, fun x' y' hx' hy' => ?_⟩
    exact gridGet_gridSet (by have := hwf.1; omega)
      (by have := gridWF_row_len hwf hy; omega)
  · unfold NetPGMFile.set_pixel
    rw [if_pos ⟨hx, hy, hv⟩]
    refine ⟨rfl, rfl, rfl, fun x' y' hx' hy' => ?_⟩
    exact gridGet_gridSet (by have := hwf.1; omega)
      (by have := gridWF_row_len hwf hy; omega)
  · unfold NetPPMFile.set_pixel
    rw [if_pos ⟨hx, hy, hc⟩]
    refine ⟨rfl, rfl, rfl, fun x' y' hx' hy' => ?_⟩
    exact gridGet_gridSet (by have := hwf.1; omega)
      (by have := gridWF_row_len hwf hy; omega)
  · unfold NetPAM.set_pixel
    rw [if_pos ⟨hx, hy, hlen, hall⟩]
    refine ⟨rfl, rfl, rfl, rfl, rfl, fun x' y' hx' hy' => ?_⟩
    exact gridGet_gridSet (by have := hwf.1; omega)
      (by have := gridWF_row_len hwf hy; omega)

/-- Witness for C10: a concrete in-bounds write on a 2 by 2 graymap keeps
the width, stores the value at (1, 0) and leaves (0, 1) unchanged. -/
theorem c10_witness :
    ((new_pgm 2 2 9).set_pixel 1 0 3).width = (new_pgm 2 2 9).width
    ∧ gridGet ((new_pgm 2 2 9).set_pixel 1 0 3).pixels 1 0 0 = 3
    ∧ gridGet ((new_pgm 2 2 9).set_pixel 1 0 3).pixels 0 1 0 =
        gridGet (new_pgm 2 2 9).pixels 0 1 0 := by
  have h := c10_set_pixel_frame.2.1 (new_pgm 2 2 9) 1 0 3 (by decide) (by decide)
    (by decide) (by decide)
  refine ⟨h.1, ?_, ?_⟩
  · have e := h.2.2.2 1 0 (by decide) (by decide)
    simpa using e
  · have e := h.2.2.2 0 1 (by decide) (by decide)
    simpa using e

/-- Method `set_pixel` preserves the bitmap invariant. -/
theorem pbmWF_set_pixel {img : NetPBMFile} (h : pbmWF img) (x y : Nat) (v : Bool) :
    pbmWF (img.set_pixel x y v) := by
  unfold NetPBMFile.set_pixel
  split
  · exact gridWF_gridSet h trivial
  · exact h

/-- Method `set_pixel` preserves the graymap invariant. -/
theorem pgmWF_set_pixel {img : NetPGMFile} (h : pgmWF img) (x y v : Nat) :
    pgmWF (img.set_pixel x y v) := by
  unfold NetPGMFile.set_pixel
  split
  next hc => exact gridWF_gridSet h hc.2.2
  next => exact h

/-- Method `set_pixel` preserves the pixmap invariant. -/
theorem ppmWF_set_pixel {img : NetPPMFile} (h : ppmWF img) (x y : Nat) (c : Nat × Nat × Nat) :
    ppmWF (img.set_pixel x y c) := by
  unfold NetPPMFile.set_pixel
  split
  next hc => exact gridWF_gridSet h hc.2.2
  next => exact h

/-- Method `set_pixel` preserves the arbitrary-map invariant. -/
theorem pamWF_set_pixel {img : NetPAM} (h : pamWF img) (x y : Nat) (c : List Nat) :
    pamWF (img.set_pixel x y c) := by
  unfold NetPAM.set_pixel
  split
  next hc => exact gridWF_gridSet h ⟨hc.2.2.1, hc.2.2.2⟩
  next => exact h

/-- Any sequence of `set_pixel` calls preserves the bitmap invariant. -/
theorem applyPbmOps_WF (ops : List (Nat × Nat × Bool)) (img : NetPBMFile) (h : pbmWF img) :
    pbmWF (applyPbmOps img ops) := by
  induction ops generalizing img with
  | nil => exact h
  | cons op ops ih => exact ih _ (pbmWF_set_pixel h op.1 op.2.1 op.2.2)

/-- Any sequence of `set_pixel` calls preserves the graymap invariant. -/
theorem applyPgmOps_WF (ops : List (Nat × Nat × Nat)) (img : NetPGMFile) (h : pgmWF img) :
    pgmWF (applyPgmOps img ops) := by
  induction ops generalizing img with
  | nil => exact h
  | cons op ops ih => exact ih _ (pgmWF_set_pixel h op.1 op.2.1 op.2.2)

/-- Any sequence of `set_pixel` calls preserves the pixmap invariant. -/
theorem applyPpmOps_WF (ops : List (Nat × Nat × (Nat × Nat × Nat))) (img : NetPPMFile)
    (h : ppmWF img) : ppmWF (applyPpmOps img ops) := by
  induction ops generalizing img with
  | nil => exact h
  | cons op ops ih => exact ih _ (ppmWF_set_pixel h op.1 op.2.1 op.2.2)

/-- Any sequence of `set_pixel` calls preserves the arbitrary-map
invariant. -/
theorem applyPamOps_WF (ops : List (Nat × Nat × List Nat)) (img : NetPAM) (h : pamWF img) :
    pamWF (applyPamOps img ops) := by
  induction ops generalizing img with
  | nil => exact h
  | cons op ops ih => exact ih _ (pamWF_set_pixel h op.1 op.2.1 op.2.2)

/-- C2 amended.  Every image built through the construction API — `new`
followed by any sequence of `set_pixel` calls — satisfies the shape and
range invariants of spec section 3, for all four formats. -/
theorem c2_constructed_invariants :
    (∀ (w h : Nat) (ops : List (Nat × Nat × Bool)), pbmWF (applyPbmOps (new_pbm w h) ops))
    ∧ (∀ (w h m : Nat) (ops : List (Nat × Nat × Nat)), pgmWF (applyPgmOps (new_pgm w h m) ops))
    ∧ (∀ (w h m : Nat) (ops : List (Nat × Nat × (Nat × Nat × Nat))),
        ppmWF (applyPpmOps (new_ppm w h m) ops))
    ∧ (∀ (w h m : Nat) (tt : TupleType) (ops : List (Nat × Nat × List Nat)),
        pamWF (applyPamOps (NetPAM.new w h m tt) ops)) := by
  refine ⟨fun w h ops => applyPbmOps_WF ops _ ?_,
    fun w h m ops => applyPgmOps_WF ops _ ?_,
    fun w h m ops => applyPpmOps_WF ops _ ?_,
    fun w h m tt ops => applyPamOps_WF ops _ ?_⟩
  · exact gridWF_new _ _ _ _ trivial
  · exact gridWF_new _ _ _ _ (Nat.zero_le m)
  · exact gridWF_new _ _ _ _ ⟨Nat.zero_le m, Nat.zero_le m, Nat.zero_le m⟩
  · refine gridWF_new _ _ _ _ ⟨by simp [NetPAM.new], fun v hv => ?_⟩
    rcases List.mem_replicate.mp hv with ⟨-, rfl⟩
    exact Nat.zero_le m

/-- The scan `takeWhile (· != sep)` traverses a list free of the separator whole. -/
theorem takeWhile_bne_all {sep : Nat} {L : List Nat} (h : sep ∉ L) :
    L.takeWhile (fun b => b != sep) = L := by
  induction L with
  | nil => rfl
  | cons a L ih =>
    have ha : a ≠ sep := fun e => h (by simp [e])
    simp [List.takeWhile_cons, ha, ih (fun hm => h (List.mem_cons_of_mem _ hm))]

/-- The scan `takeWhile (· != sep)` stops exactly at the first separator. -/
theorem takeWhile_bne_append {sep : Nat} {L r : List Nat} (h : sep ∉ L) :
    (L ++ sep :: r).takeWhile (fun b => b != sep) = L := by
  induction L with
  | nil => simp [List.takeWhile_cons]
  | cons a L ih =>
    have ha : a ≠ sep := fun e => h (by simp [e])
    simp [List.takeWhile_cons, ha, ih (fun hm => h (List.mem_cons_of_mem _ hm))]

/-- The scan `dropWhile (· != sep)` stops exactly at the first separator. -/
theorem dropWhile_bne_append {sep : Nat} {L r : List Nat} (h : sep ∉ L) :
    (L ++ sep :: r).dropWhile (fun b => b != sep) = sep :: r := by
  induction L with
  | nil => simp [List.dropWhile_cons]
  | cons a L ih =>
    have ha : a ≠ sep := fun e => h (by simp [e])
    simp [List.dropWhile_cons, ha, ih (fun hm => h (List.mem_cons_of_mem _ hm))]

/-- Reading one line from a newline-terminated line followed by more
bytes. -/
theorem readLine_append {L r : List Nat} (h : 10 ∉ L) : readLine (L ++ 10 :: r) = (L, r) := by
  unfold readLine
  rw [takeWhile_bne_append h, dropWhile_bne_append h]
  rfl

/-- One unfolding of the header loop while both dimensions are unknown. -/
theorem headerLoopF_step (f : Nat) (bs : List Nat) :
    headerLoopF (f + 1) bs none none =
      headerLoopF f (readLine bs).2 (headerField none (some (firstFieldOf (readLine bs).1)))
        (headerField none (secondField (readLine bs).1)) := rfl

/-- The header loop exits as soon as both dimensions are known. -/
theorem headerLoopF_done (f : Nat) (bs : List Nat) (w h : Nat) :
    headerLoopF f bs (some w) (some h) = some (w, h, bs) := by
  simp [headerLoopF]

/-- A parseable field overwrites the stored dimension. -/
theorem headerField_some {f : List Nat} {v : Nat} (h : parseUsize f = some v)
    (old : Option Nat) : headerField old (some f) = some v := by
  simp [headerField, h]

/-- An unparseable field keeps the stored dimension. -/
theorem headerField_none {f : List Nat} (h : parseUsize f = none) (old : Option Nat) :
    headerField old (some f) = old := by
  simp [headerField, h]

/-- A line whose first two space-separated fields parse to nothing is
skipped by the header loop without changing the dimensions. -/
theorem headerLoopF_skip_line (f : Nat) (L rest : List Nat) (h10 : 10 ∉ L)
    (h1 : parseUsize (firstFieldOf L) = none)
    (h2 : ∀ t, secondField L = some t → parseUsize t = none) :
    headerLoopF (f + 1) (L ++ 10 :: rest) none none = headerLoopF f rest none none := by
  rw [headerLoopF_step, readLine_append h10]
  have e2 : headerField none (secondField L) = none := by
    cases hs : secondField L with
    | none => rfl
    | some t => exact headerField_none (h2 t hs) none
  dsimp only
  rw [headerField_none h1, e2]

/-- A line of the shape `<wtok> <htok>` makes the header loop succeed with
the parsed width and height and the remaining bytes untouched. -/
theorem headerLoopF_dims_line (f : Nat) (wtok htok rest : List Nat) (w h : Nat)
    (hw : parseUsize wtok = some w) (hh : parseUsize htok = some h)
    (hw32 : 32 ∉ wtok) (hw10 : 10 ∉ wtok) (hh32 : 32 ∉ htok) (hh10 : 10 ∉ htok) :
    headerLoopF (f + 1) (wtok ++ 32 :: htok ++ 10 :: rest) none none = some (w, h, rest) := by
  have hline10 : 10 ∉ (wtok ++ 32 :: htok) := by
    intro hm
    rcases List.mem_append.mp hm with hm | hm
    · exact hw10 hm
    · rcases List.mem_cons.mp hm with e | hm
      · exact (by decide : (10 : Nat) ≠ 32) e
      · exact hh10 hm
  have happ : wtok ++ 32 :: htok ++ 10 :: rest = (wtok ++ 32 :: htok) ++ 10 :: rest := by
    simp [List.append_assoc]
  rw [happ, headerLoopF_step, readLine_append hline10]
  dsimp only
  have e1 : firstFieldOf (wtok ++ 32 :: htok) = wtok := takeWhile_bne_append hw32
  have e2 : secondField (wtok ++ 32 :: htok) = some htok := by
    unfold secondField
    rw [dropWhile_bne_append hw32]
    simp [takeWhile_bne_all hh32]
  rw [e1, e2]
  rw [headerField_some hw, headerField_some hh, headerLoopF_done]

/-- C4 amended.  The header loop splits each line on single spaces and
examines only the first two fields: it skips every prefix of lines whose
first two fields (assumed valid UTF-8, here ASCII) parse to nothing, and on
the first line of the shape `<wtok> <htok>` with both fields parseable it
returns `width` from the first field, `height` from the second field, and
the bytes after that line as the payload. -/
theorem c4_amended_header (junk : List (List Nat)) (wtok htok rest : List Nat) (w h : Nat)
    (hjunk : ∀ L ∈ junk, 10 ∉ L ∧ (∀ b ∈ L, b < 128)
      ∧ parseUsize (firstFieldOf L) = none
      ∧ ∀ t, secondField L = some t → parseUsize t = none)
    (hw : parseUsize wtok = some w) (hh : parseUsize htok = some h)
    (hw32 : 32 ∉ wtok) (hw10 : 10 ∉ wtok) (hh32 : 32 ∉ htok) (hh10 : 10 ∉ htok) :
    ∀ fuel, junk.length < fuel →
      headerLoopF fuel (lineJoin junk ++ wtok ++ 32 :: htok ++ 10 :: rest) none none
        = some (w, h, rest) := by
  induction junk with
  | nil =>
    intro fuel hf
    obtain ⟨f, rfl⟩ : ∃ f, fuel = f + 1 := ⟨fuel - 1, by omega⟩
    simpa [lineJoin] using headerLoopF_dims_line f wtok htok rest w h hw hh hw32 hw10 hh32 hh10
  | cons L js ih =>
    intro fuel hf
    obtain ⟨f, rfl⟩ : ∃ f, fuel = f + 1 := ⟨fuel - 1, by omega⟩
    obtain ⟨hL10, hascii, hL1, hL2⟩ := hjunk L (by simp)
    have e : lineJoin (L :: js) ++ wtok ++ 32 :: htok ++ 10 :: rest
        = L ++ 10 :: (lineJoin js ++ wtok ++ 32 :: htok ++ 10 :: rest) := by
      simp [lineJoin, List.append_assoc]
    rw [e, headerLoopF_skip_line f _ _ hL10 hL1 hL2]
    refine ih (fun L' hm => hjunk L' (by simp [hm])) f ?_
    have : js.length < f := by
      simp only [List.length_cons] at hf
      omega
    exact this

/-- Witness for the amended C4 statement: the junk line "P2" is skipped and
the line "3 4" yields width 3, height 4 with the byte 99 left as payload. -/
theorem c4_amended_witness :
    headerLoopF 3 [80, 50, 10, 51, 32, 52, 10, 99] none none = some (3, 4, [99]) := by
  have h := c4_amended_header [[80, 50]] [51] [52] [99] 3 4 ?hj (by decide) (by decide)
    (by decide) (by decide) (by decide) (by decide) 3 (by decide)
  · simpa [lineJoin] using h
  case hj =>
    intro L hm
    simp only [List.mem_singleton] at hm
    subst hm
    refine ⟨by decide, by decide, by decide, ?_⟩
    intro t ht
    rw [show secondField [80, 50] = none from rfl] at ht
    cases ht

/-- A digit expansion with enough fuel is never empty. -/
theorem natDigitsAux_len_pos : ∀ (fuel n : Nat), n < fuel → 1 ≤ (natDigitsAux fuel n).length := by
  intro fuel
  induction fuel with
  | zero => intro n h; omega
  | succ f ih =>
    intro n h
    simp only [natDigitsAux]
    split
    · simp
    · simp

/-- Upper bound: a number below `10 ^ k` has at most `k` decimal digits. -/
theorem natDigitsAux_len_le : ∀ (fuel n k : Nat), n < 10 ^ k → 1 ≤ k → n < fuel →
    (natDigitsAux fuel n).length ≤ k := by
  intro fuel
  induction fuel with
  | zero => intro n k _ _ h; omega
  | succ f ih =>
    intro n k hk h1 hf
    simp only [natDigitsAux]
    by_cases h10 : n < 10
    · rw [if_pos h10]
      simpa using h1
    · rw [if_neg h10]
      rw [List.length_append]
      have hk2 : 2 ≤ k := by
        rcases Nat.lt_or_ge k 2 with hlt | hge
        · have hk1 : k = 1 := by omega
          subst hk1
          norm_num at hk
          omega
        · exact hge
      have hdiv : n / 10 < 10 ^ (k - 1) := by
        rw [Nat.div_lt_iff_lt_mul (by norm_num)]
        have e : 10 ^ (k - 1) * 10 = 10 ^ k := by
          rw [← Nat.pow_succ]
          congr 1
          omega
        rw [e]
        exact hk
      have hfn : n / 10 < f := by
        have h2 := Nat.div_lt_self (by omega : 0 < n) (by norm_num : 1 < 10)
        omega
      have hrec := ih (n / 10) (k - 1) hdiv (by omega) hfn
      simp only [List.length_cons, List.length_nil]
      omega

/-- Lower bound: a number at least `10 ^ k` has more than `k` decimal
digits. -/
theorem natDigitsAux_len_lower : ∀ (fuel n k : Nat), 10 ^ k ≤ n → n < fuel →
    k + 1 ≤ (natDigitsAux fuel n).length := by
  intro fuel
  induction fuel with
  | zero => intro n k _ h; omega
  | succ f ih =>
    intro n k hk hf
    by_cases h10 : n < 10
    · have hk0 : k = 0 := by
        by_contra hne
        have h1 : 1 ≤ k := by omega
        have h2 : 10 ^ 1 ≤ 10 ^ k := Nat.pow_le_pow_right (by norm_num) h1
        norm_num at h2
        omega
      subst hk0
      simp [natDigitsAux, h10]
    · simp only [natDigitsAux]
      rw [if_neg h10]
      rw [List.length_append]
      simp only [List.length_cons, List.length_nil]
      cases k with
      | zero => omega
      | succ k' =>
        have hdiv : 10 ^ k' ≤ n / 10 := by
          rw [Nat.le_div_iff_mul_le (by norm_num)]
          calc 10 ^ k' * 10 = 10 ^ (k' + 1) := by rw [Nat.pow_succ]
          _ ≤ n := hk
        have hfn : n / 10 < f := by
          have h2 := Nat.div_lt_self (by omega : 0 < n) (by norm_num : 1 < 10)
          omega
        have hrec := ih (n / 10) k' hdiv hfn
        omega

/-- Smaller numbers never print with more decimal digits. -/
theorem natToDigits_len_mono {a b : Nat} (h : a ≤ b) :
    (natToDigits a).length ≤ (natToDigits b).length := by
  have ea : natToDigits a = natDigitsAux (a + 1) a := rfl
  have eb : natToDigits b = natDigitsAux (b + 1) b := rfl
  by_contra hcon
  push_neg at hcon
  have hkb1 : 1 ≤ (natToDigits b).length := by
    rw [eb]
    exact natDigitsAux_len_pos (b + 1) b (by omega)
  have ha : 10 ^ (natToDigits b).length ≤ a := by
    by_contra hlt
    push_neg at hlt
    have hle := natDigitsAux_len_le (a + 1) a (natToDigits b).length hlt hkb1 (by omega)
    rw [← ea] at hle
    omega
  have hb : 10 ^ (natToDigits b).length ≤ b := le_trans ha h
  have hlow := natDigitsAux_len_lower (b + 1) b (natToDigits b).length hb (by omega)
  rw [← eb] at hlow
  omega

/-- The length of an ASCII sample field of an in-range value is exactly the
decimal digit count of the maximum value. -/
theorem fmtField_length {m v : Nat} (h : v ≤ m) : (fmtField m v).length = decimalWidth m := by
  have hm := natToDigits_len_mono h
  unfold fmtField decimalWidth
  rw [String.length_mk, List.length_append, List.length_replicate]
  omega

/-- Join `joinSep` distributes over the concatenation of two non-empty lists. -/
theorem joinSep_append (sep : String) : ∀ (xs ys : List String), xs ≠ [] → ys ≠ [] →
    joinSep sep (xs ++ ys) = joinSep sep xs ++ sep ++ joinSep sep ys := by
  intro xs
  induction xs with
  | nil => intro ys h; exact absurd rfl h
  | cons a xs ih =>
    intro ys hxs hys
    cases xs with
    | nil =>
      cases ys with
      | nil => exact absurd rfl hys
      | cons b ys' => rfl
    | cons c xs' =>
      have h1 : joinSep sep ((a :: c :: xs') ++ ys) = a ++ sep ++ joinSep sep ((c :: xs') ++ ys) := rfl
      rw [h1, ih ys (by simp) hys]
      have h2 : joinSep sep (a :: c :: xs') = a ++ sep ++ joinSep sep (c :: xs') := rfl
      rw [h2]
      simp [String.append_assoc]

/-- Joining a pixmap row pixel by pixel (three fields per pixel as the code
formats it) equals joining the flattened sequence of channel fields (as the
spec words it). -/
theorem joinSep_triple_row (m : Nat) : ∀ (row : List (Nat × Nat × Nat)),
    joinSep " " (row.map (fmtTriple m)) =
      joinSep " " ((row.flatMap (fun p => [p.1, p.2.1, p.2.2])).map (padField (decimalWidth m))) := by
  intro row
  induction row with
  | nil => rfl
  | cons p row ih =>
    cases row with
    | nil =>
      show fmtTriple m p = _
      unfold fmtTriple
      show fmtField m p.1 ++ " " ++ fmtField m p.2.1 ++ " " ++ fmtField m p.2.2
        = joinSep " " [padField (decimalWidth m) p.1, padField (decimalWidth m) p.2.1,
            padField (decimalWidth m) p.2.2]
      show _ = padField (decimalWidth m) p.1 ++ " "
        ++ (padField (decimalWidth m) p.2.1 ++ " " ++ padField (decimalWidth m) p.2.2)
      simp [String.append_assoc]
      rfl
    | cons q row' =>
      have e1 : joinSep " " ((p :: q :: row').map (fmtTriple m))
          = fmtTriple m p ++ " " ++ joinSep " " ((q :: row').map (fmtTriple m)) := rfl
      have e2 : (p :: q :: row').flatMap (fun p => [p.1, p.2.1, p.2.2])
          = [p.1, p.2.1, p.2.2] ++ (q :: row').flatMap (fun p => [p.1, p.2.1, p.2.2]) := rfl
      rw [e1, e2, ih, List.map_append]
      rw [joinSep_append " " _ _ (by simp) (by simp)]
      have e3 : joinSep " " ([p.1, p.2.1, p.2.2].map (padField (decimalWidth m)))
          = padField (decimalWidth m) p.1 ++ " "
            ++ (padField (decimalWidth m) p.2.1 ++ " " ++ padField (decimalWidth m) p.2.2) := rfl
      rw [e3]
      unfold fmtTriple
      have e4 : fmtField m p.1 = padField (decimalWidth m) p.1 := rfl
      have e5 : fmtField m p.2.1 = padField (decimalWidth m) p.2.1 := rfl
      have e6 : fmtField m p.2.2 = padField (decimalWidth m) p.2.2 := rfl
      rw [e4, e5, e6]
      simp [String.append_assoc]

/-- C8.  The text form of each format is exactly the layout the claim
describes (for the pixmap this equates the code's per-pixel formatting with
the spec's flattened space-joined fields); every sample field of an
in-range value is right-aligned to exactly the decimal digit count of
`max_val`, hence exactly 5 characters when `max_val` is 65535. -/
theorem c8_text_layout :
    (∀ (img : NetPBMFile) (c : Option String), img.to_ascii c = pbmLayoutSpec img c)
    ∧ (∀ (img : NetPGMFile) (c : Option String), img.to_ascii c = pgmLayoutSpec img c)
    ∧ (∀ (img : NetPPMFile) (c : Option String), img.to_ascii c = ppmLayoutSpec img c)
    ∧ (∀ m v : Nat, v ≤ m → (fmtField m v).length = decimalWidth m)
    ∧ (∀ v : Nat, v ≤ 65535 → (fmtField 65535 v).length = 5) := by
  refine ⟨fun img c => ?_, fun img c => ?_, fun img c => ?_, fun m v h => fmtField_length h,
    fun v hv => ?_⟩
  · unfold NetPBMFile.to_ascii pbmLayoutSpec rowsBlock
    simp [String.append_assoc]
  · unfold NetPGMFile.to_ascii pgmLayoutSpec rowsBlock
    have ef : fmtField img.max_val = padField (decimalWidth img.max_val) := rfl
    rw [ef]
    simp [String.append_assoc]
  · unfold NetPPMFile.to_ascii ppmLayoutSpec rowsBlock
    have e : img.pixels.map (fun row => joinSep " " (row.map (fmtTriple img.max_val)))
        = img.pixels.map (fun row => joinSep " "
            ((row.flatMap (fun p => [p.1, p.2.1, p.2.2])).map
              (padField (decimalWidth img.max_val)))) := by
      simp only [joinSep_triple_row]
    rw [e]
    simp [String.append_assoc]
  · rw [fmtField_length hv]
    rfl

/-- Witness for C8's field-width statement at a concrete sample. -/
theorem c8_witness : (fmtField 65535 7).length = 5 :=
  c8_text_layout.2.2.2.2 7 (by norm_num)
